import Mathlib

/-!
Verification of the core interaction and animation logic of the Easter-egg
scene (repository `eastereggs`).  The repository has two source variants:

* `src/src/App.tsx` — 7 eggs, `handleCrack` with a 3000 ms auto-clear timer,
  no facing gate;
* `src/unnamed/part_000` — 8 eggs, `handleCrack` with an angle-based facing
  gate (threshold `π/2.5`), no timer.

Machine floats of the source are embedded as real numbers; JavaScript
`Math.atan2 y x` is embedded as the complex argument of `x + y·i`
(range `(-π, π]`, matching `atan2`).  React `useState` state is embedded as
explicit state records, one step function per event handler or per-frame
callback.
-/

noncomputable section

open Real

/-- three.js `MathUtils.lerp(x, y, t)`, whose source is `( 1 - t ) * x + t * y`. -/
def lerp (x y t : ℝ) : ℝ := (1 - t) * x + t * y

/-- three.js `MathUtils.clamp(value, min, max)`, whose source is
`Math.max( min, Math.min( max, value ) )`. -/
def clamp (value lo hi : ℝ) : ℝ := max lo (min hi value)

/-- JavaScript `Math.atan2(y, x)`, embedded as the complex argument of `x + y·i`. -/
def atan2 (y x : ℝ) : ℝ := Complex.arg ⟨x, y⟩

/-- Length of the `eggData` content table in `src/src/App.tsx` (7 records). -/
def eggCountA : ℕ := 7

/-- Length of the `eggData` content table in `src/unnamed/part_000` (8 records). -/
def eggCountB : ℕ := 8

/-- `const radius = 3` of the `positions` memo (both variants). -/
def radius : ℝ := 3

/-- The `positions` memo:
`eggData.map((_, i) => [radius * Math.cos(i * step), yOffset, radius * Math.sin(i * step)])`
with `step = (2 * Math.PI) / eggData.length`, generalized over the table length `N`
and the vertical offset `y0` (`1.5` in `App.tsx`, `1.0` in `part_000`). -/
def positions (N : ℕ) (y0 : ℝ) : List (ℝ × ℝ × ℝ) :=
  (List.range N).map fun i : ℕ =>
    (radius * Real.cos ((i : ℝ) * (2 * π / N)), y0, radius * Real.sin ((i : ℝ) * (2 * π / N)))

/-- The egg angle computed in `handleCrack` of `part_000`:
`i * (2 * Math.PI) / eggData.length`. -/
def eggAngle (N i : ℕ) : ℝ := i * (2 * π) / N

/-- `handleWheel` (both variants): if `Math.abs(e.deltaX) > Math.abs(e.deltaY)`
then `setZoom(z => THREE.MathUtils.clamp(z + e.deltaX * 0.001, 0.5, 2))`. -/
def handleWheel (deltaX deltaY zoom : ℝ) : ℝ :=
  if |deltaX| > |deltaY| then clamp (zoom + deltaX * 0.001) 0.5 2 else zoom

/-- Folding a whole sequence of wheel events over the zoom scalar. -/
def runWheel (events : List (ℝ × ℝ)) (zoom : ℝ) : ℝ :=
  events.foldl (fun z e => handleWheel e.1 e.2 z) zoom

/-- Initial zoom state: `useState(1)`. -/
def zoomInit : ℝ := 1

/-- `ZoomController` effect body: `camera.position.set(0, 5, 10 / zoom)`,
overwriting whatever position `prev` the camera had before. -/
def zoomCamera (prev : ℝ × ℝ × ℝ) (zoom : ℝ) : ℝ × ℝ × ℝ := (0, 5, 10 / zoom)

/-- Per-egg mutable visual state touched by the `Egg` `useFrame` callback:
`rotation.y`, `position.y` and `scale.x` of the mesh. -/
structure EggState where
  rotY : ℝ
  posY : ℝ
  scaleX : ℝ

/-- One `useFrame` tick of `Egg` (both variants):
`rotation.y += 0.02`; `targetY = isSelected ? baseY + raiseAmount : baseY` with
`raiseAmount = 1` in `App.tsx` and `0.5` in `part_000`;
`position.y = lerp(position.y, targetY, 0.1)`;
`targetScale = isSelected ? 1.2 : hovered ? 1.1 : 1`;
`s = lerp(scale.x, targetScale, 0.1)`. -/
def eggFrame (isSelected hovered : Bool) (baseY raiseAmount : ℝ) (e : EggState) : EggState :=
  { rotY := e.rotY + 0.02
    posY := lerp e.posY (if isSelected then baseY + raiseAmount else baseY) 0.1
    scaleX := lerp e.scaleX (if isSelected then 1.2 else if hovered then 1.1 else 1) 0.1 }

/-- `mesh.scale.set(s, s * 1.3, s)`: the scale vector applied from the eased scalar. -/
def eggScaleVec (e : EggState) : ℝ × ℝ × ℝ := (e.scaleX, e.scaleX * 1.3, e.scaleX)

/-- Per-droplet mutable state of the `Droplet` component: the progress state `t`
(`useState(0)`) and the mesh's `position.y`, `rotation.x`, `rotation.y`. -/
structure DropletState where
  t : ℝ
  posY : ℝ
  rotX : ℝ
  rotY : ℝ

/-- The vertical position written by the `Droplet` `useFrame` callback at progress `t`:
`THREE.MathUtils.lerp(startY, endY, t)` with `startY = position[1] + 2` and
`endY = position[1] + 0.2`. -/
def dropletPosY (baseY t : ℝ) : ℝ := lerp (baseY + 2) (baseY + 0.2) t

/-- Initial droplet state: the mesh is created at `[position[0], position[1] + 2, position[2]]`
with zero rotation, and the progress state starts at `useState(0)`. -/
def dropletInit (baseY : ℝ) : DropletState :=
  { t := 0, posY := baseY + 2, rotX := 0, rotY := 0 }

/-- One `useFrame` tick of `Droplet`: `setT((v) => Math.min(1, v + delta))` schedules
the progress for the next render, while `position.y`, written in the same tick, uses
the progress value `t` current during this render; `rotation.x += delta`;
`rotation.y += delta`. -/
def dropletFrame (baseY delta : ℝ) (d : DropletState) : DropletState :=
  { t := min 1 (d.t + delta)
    posY := dropletPosY baseY d.t
    rotX := d.rotX + delta
    rotY := d.rotY + delta }

/-- A droplet's state after a sequence of frame deltas, starting from its creation. -/
def runDroplet (baseY : ℝ) (deltas : List ℝ) : DropletState :=
  deltas.foldl (fun d δ => dropletFrame baseY δ d) (dropletInit baseY)

/-- The dropped-set update shared by both variants' `handleCrack`:
`if (!dropped.includes(i)) setDropped([...dropped, i])`. -/
def crackDropped (i : ℕ) (dropped : List ℕ) : List ℕ :=
  if i ∈ dropped then dropped else dropped ++ [i]

/-- Interaction state of `App.tsx`: `dropped` (`useState([])`),
`selectedEgg` (`useState(null)`), and the deadline of the pending
`selectionTimeout` auto-clear timer, `none` when no timer is pending. -/
structure StateA where
  dropped : List ℕ
  selectedEgg : Option ℕ
  selectionDeadline : Option ℝ

/-- Initial interaction state of `App.tsx`. -/
def initA : StateA := { dropped := [], selectedEgg := none, selectionDeadline := none }

/-- `handleCrack` of `App.tsx`, run at wall-clock time `now`: add `i` to `dropped`
once, set `selectedEgg = i`, `clearTimeout` any pending timer and
`setTimeout(() => setSelectedEgg(null), 3000)` — so the single pending deadline
is replaced by `now + 3000`. -/
def handleCrackA (now : ℝ) (i : ℕ) (s : StateA) : StateA :=
  { dropped := crackDropped i s.dropped
    selectedEgg := some i
    selectionDeadline := some (now + 3000) }

/-- The host event loop observed at time `now`: the scheduled timeout callback
`() => setSelectedEgg(null)` runs exactly when a timer is pending and its
deadline has been reached, after which no timer is pending. -/
def tickA (now : ℝ) (s : StateA) : StateA :=
  match s.selectionDeadline with
  | some deadline =>
      if deadline ≤ now then
        { s with selectedEgg := none, selectionDeadline := none }
      else s
  | none => s

/-- Interaction state of `part_000`: `dropped` and `selectedEgg` (no timer). -/
structure StateB where
  dropped : List ℕ
  selectedEgg : Option ℕ

/-- The facing-gate threshold of `part_000`: `const thresholdAngle = Math.PI / 2.5`. -/
def thresholdAngle : ℝ := π / 2.5

/-- The normalized angle difference of `part_000`:
`angleDiff = Math.atan2(Math.sin(angleDiff), Math.cos(angleDiff))`. -/
def angleDiffNorm (d : ℝ) : ℝ := atan2 (Real.sin d) (Real.cos d)

/-- `handleCrack` of `part_000` at camera position `camPos`:
`cameraAngle = Math.atan2(camera.position.z, camera.position.x)`;
`eggAngle = i * (2 * Math.PI) / eggData.length`;
proceed only `if (Math.abs(angleDiff) < thresholdAngle)`, and then drop `i`
once and set `selectedEgg = i`; otherwise log only, with no state change. -/
def handleCrackB (camPos : ℝ × ℝ × ℝ) (i : ℕ) (s : StateB) : StateB :=
  if |angleDiffNorm (eggAngle eggCountB i - atan2 camPos.2.2 camPos.1)| < thresholdAngle then
    { dropped := crackDropped i s.dropped, selectedEgg := some i }
  else s

/-- `yOffset = 1.0` of `part_000`: the base height of every egg in that variant. -/
def yOffsetB : ℝ := 1

/-- Whole-session state of the `part_000` variant: interaction state, zoom scalar,
and the per-egg and per-droplet animation state. -/
structure SceneB where
  dropped : List ℕ
  selectedEgg : Option ℕ
  zoom : ℝ
  eggs : ℕ → EggState
  droplets : ℕ → DropletState

/-- The session events of the `part_000` variant: a crack trigger, a wheel event,
and a rendered frame (with the per-egg hovered flags current at that frame). -/
inductive OpB where
  | crack (camPos : ℝ × ℝ × ℝ) (i : ℕ)
  | scroll (deltaX deltaY : ℝ)
  | frame (delta : ℝ) (hovered : ℕ → Bool)

/-- Applying one session event: `crack` runs `handleCrackB`; `scroll` runs
`handleWheel`; `frame` runs every egg's `useFrame` callback (raise amount `0.5`
in this variant) and the `useFrame` callback of every mounted droplet —
`Droplet` components are mounted exactly for the indices in `dropped`. -/
def applyOp : OpB → SceneB → SceneB
  | OpB.crack camPos i, s =>
      let s' := handleCrackB camPos i { dropped := s.dropped, selectedEgg := s.selectedEgg }
      { s with dropped := s'.dropped, selectedEgg := s'.selectedEgg }
  | OpB.scroll dx dy, s => { s with zoom := handleWheel dx dy s.zoom }
  | OpB.frame δ hov, s =>
      { s with
        eggs := fun i => eggFrame (s.selectedEgg == some i) (hov i) yOffsetB 0.5 (s.eggs i)
        droplets := fun i =>
          if i ∈ s.dropped then dropletFrame yOffsetB δ (s.droplets i) else s.droplets i }

/-- A whole session: folding a list of events over a scene state. -/
def runB (ops : List OpB) (s : SceneB) : SceneB :=
  ops.foldl (fun s op => applyOp op s) s

/-- Initial scene state of `part_000`: nothing dropped or selected, zoom `1`,
every egg at rest at its base height with scale `1`, every droplet unmounted
(kept at its creation state). -/
def initSceneB : SceneB :=
  { dropped := []
    selectedEgg := none
    zoom := zoomInit
    eggs := fun _ => { rotY := 0, posY := yOffsetB, scaleX := 1 }
    droplets := fun _ => dropletInit yOffsetB }

/-! ### Helper lemmas -/

theorem lerp_eq_add_mul (x y t : ℝ) : lerp x y t = x + (y - x) * t := by
  unfold lerp; ring

theorem lerp_zero_right (x y : ℝ) : lerp x y 0 = x := by
  unfold lerp; ring

theorem lerp_one_right (x y : ℝ) : lerp x y 1 = y := by
  unfold lerp; ring

theorem lerp_bounds (x y t : ℝ) (h0 : 0 ≤ t) (h1 : t ≤ 1) (hyx : y ≤ x) :
    y ≤ lerp x y t ∧ lerp x y t ≤ x := by
  unfold lerp
  constructor <;> nlinarith

theorem clamp_mem (value lo hi : ℝ) (h : lo ≤ hi) :
    lo ≤ clamp value lo hi ∧ clamp value lo hi ≤ hi := by
  unfold clamp
  exact ⟨le_max_left _ _, max_le h (min_le_left _ _)⟩

theorem handleWheel_mem (dx dy z : ℝ) (h0 : 0.5 ≤ z) (h1 : z ≤ 2) :
    0.5 ≤ handleWheel dx dy z ∧ handleWheel dx dy z ≤ 2 := by
  unfold handleWheel
  split
  · exact clamp_mem _ _ _ (by norm_num)
  · exact ⟨h0, h1⟩

theorem runWheel_mem (events : List (ℝ × ℝ)) (z : ℝ) (h0 : 0.5 ≤ z) (h1 : z ≤ 2) :
    0.5 ≤ runWheel events z ∧ runWheel events z ≤ 2 := by
  induction events generalizing z with
  | nil => exact ⟨h0, h1⟩
  | cons e es ih =>
      have h := handleWheel_mem e.1 e.2 z h0 h1
      exact ih _ h.1 h.2

theorem sqrt_nine : Real.sqrt 9 = 3 := by
  rw [show (9 : ℝ) = 3 ^ 2 by norm_num, Real.sqrt_sq (by norm_num)]

/-! ### Claim theorems -/

/-- C5. Layout correctness: for every egg count `N ≥ 1` and vertical offset `y0`,
`positions N y0` has exactly `N` entries, entry `i` is
`(radius·cos(i·2π/N), y0, radius·sin(i·2π/N))`, every entry is at Euclidean
distance `radius = 3` from the vertical axis through the origin, consecutive
egg angles differ by `2π/N`, and entry `0` is `(radius, y0, 0)`. -/
theorem positions_layout (N : ℕ) (hN : 1 ≤ N) (y0 : ℝ) :
    (positions N y0).length = N
    ∧ (∀ i, i < N → (positions N y0)[i]? =
        some (radius * Real.cos (eggAngle N i), y0, radius * Real.sin (eggAngle N i)))
    ∧ (∀ p ∈ positions N y0, Real.sqrt (p.1 ^ 2 + p.2.2 ^ 2) = radius)
    ∧ (∀ i : ℕ, eggAngle N (i + 1) - eggAngle N i = 2 * π / N)
    ∧ (positions N y0)[0]? = some (radius, y0, 0) := by
  have hang : ∀ i : ℕ, (i : ℝ) * (2 * π / N) = eggAngle N i := by
    intro i; unfold eggAngle; ring
  refine ⟨?_, ?_, ?_, ?_, ?_⟩
  · simp only [positions, List.length_map, List.length_range]
  · intro i hi
    simp only [positions, List.getElem?_map, List.getElem?_range hi, hang, Option.map_some']
  · intro p hp
    simp only [positions, List.mem_map, List.mem_range] at hp
    obtain ⟨i, -, rfl⟩ := hp
    dsimp only
    have hpyth := Real.sin_sq_add_cos_sq ((i : ℝ) * (2 * π / N))
    have h9 : (radius * Real.cos ((i : ℝ) * (2 * π / N))) ^ 2
        + (radius * Real.sin ((i : ℝ) * (2 * π / N))) ^ 2 = 9 := by
      unfold radius; nlinarith
    rw [h9, show radius = 3 from rfl]
    exact sqrt_nine
  · intro i
    unfold eggAngle
    push_cast
    ring
  · have h0 : 0 < N := hN
    simp only [positions, List.getElem?_map, List.getElem?_range h0, Option.map_some',
      Nat.cast_zero, zero_mul, Real.cos_zero, Real.sin_zero, mul_one, mul_zero]

/-- C5 witness: the concrete table of the gated variant, `N = 8`, `y0 = 1`. -/
theorem positions_layout_witness :
    (positions 8 1).length = 8 ∧ (positions 8 1)[0]? = some (radius, 1, 0) :=
  ⟨(positions_layout 8 (by norm_num) 1).1, (positions_layout 8 (by norm_num) 1).2.2.2.2⟩

/-- C7. Zoom clamping and horizontal gating: starting from the initial zoom `1`,
after any sequence of wheel events the zoom scalar lies in `[0.5, 2]`; an event
leaves the zoom unchanged unless `|deltaX| > |deltaY|`, and when
`|deltaX| > |deltaY|` the update is `clamp (zoom + deltaX·0.001) 0.5 2`. -/
theorem zoom_clamped :
    (∀ events : List (ℝ × ℝ),
      0.5 ≤ runWheel events zoomInit ∧ runWheel events zoomInit ≤ 2)
    ∧ (∀ dx dy z : ℝ, ¬ |dx| > |dy| → handleWheel dx dy z = z)
    ∧ (∀ dx dy z : ℝ, |dx| > |dy| →
        handleWheel dx dy z = clamp (z + dx * 0.001) 0.5 2) := by
  refine ⟨fun events => runWheel_mem events zoomInit (by norm_num [zoomInit])
    (by norm_num [zoomInit]), ?_, ?_⟩
  · intro dx dy z h
    unfold handleWheel
    exact if_neg h
  · intro dx dy z h
    unfold handleWheel
    exact if_pos h

/-- C7 witness: a concrete event sequence, a vertical event, a horizontal event. -/
theorem zoom_clamped_witness :
    (0.5 ≤ runWheel [(2, 1), (0, 3)] zoomInit ∧ runWheel [(2, 1), (0, 3)] zoomInit ≤ 2)
    ∧ handleWheel 1 2 1 = 1
    ∧ handleWheel 2 1 1 = clamp (1 + 2 * 0.001) 0.5 2 :=
  ⟨zoom_clamped.1 _,
   zoom_clamped.2.1 1 2 1 (by rw [abs_of_nonneg, abs_of_nonneg] <;> norm_num),
   zoom_clamped.2.2 2 1 1 (by rw [abs_of_nonneg, abs_of_nonneg] <;> norm_num)⟩

/-- C8. Zoom-to-camera mapping: the `ZoomController` effect repositions the camera
to `(0, 5, 10 / zoom)` as a direct recomputation from the zoom scalar alone — the
result is independent of the previous camera position (no easing or interpolation). -/
theorem zoom_camera_snap (p q : ℝ × ℝ × ℝ) (z : ℝ) :
    zoomCamera p z = (0, 5, 10 / z) ∧ zoomCamera p z = zoomCamera q z :=
  ⟨rfl, rfl⟩

/-- C9. Egg per-frame visual update: each frame adds exactly `0.02` to the
rotation; the vertical position moves toward the target (base height plus the
raise amount when selected, base height otherwise) by
`current += (target − current)·0.1`; the scale scalar moves toward `1.2` when
selected, else `1.1` when hovered, else `1`, by the same factor `0.1`, and is
applied anisotropically as `(s, 1.3·s, s)`. -/
theorem egg_frame_update (sel hov : Bool) (baseY raiseAmount : ℝ) (e : EggState) :
    (eggFrame sel hov baseY raiseAmount e).rotY = e.rotY + 0.02
    ∧ (eggFrame sel hov baseY raiseAmount e).posY =
        e.posY + ((if sel then baseY + raiseAmount else baseY) - e.posY) * 0.1
    ∧ (eggFrame sel hov baseY raiseAmount e).scaleX =
        e.scaleX + ((if sel then (1.2 : ℝ) else if hov then 1.1 else 1) - e.scaleX) * 0.1
    ∧ eggScaleVec (eggFrame sel hov baseY raiseAmount e) =
        ((eggFrame sel hov baseY raiseAmount e).scaleX,
         1.3 * (eggFrame sel hov baseY raiseAmount e).scaleX,
         (eggFrame sel hov baseY raiseAmount e).scaleX) := by
  refine ⟨rfl, lerp_eq_add_mul _ _ _, lerp_eq_add_mul _ _ _, ?_⟩
  simp [eggScaleVec, mul_comm]

theorem mem_crackDropped_self (i : ℕ) (l : List ℕ) : i ∈ crackDropped i l := by
  unfold crackDropped
  split
  · assumption
  · simp

theorem mem_crackDropped_of_mem {j : ℕ} (i : ℕ) {l : List ℕ} (h : j ∈ l) :
    j ∈ crackDropped i l := by
  unfold crackDropped
  split
  · exact h
  · exact List.mem_append_left _ h

theorem dropletFrame_inv (baseY δ : ℝ) (hδ : 0 ≤ δ) (d : DropletState)
    (hd : 0 ≤ d.t ∧ d.t ≤ 1 ∧ baseY + 0.2 ≤ d.posY ∧ d.posY ≤ baseY + 2) :
    0 ≤ (dropletFrame baseY δ d).t ∧ (dropletFrame baseY δ d).t ≤ 1
    ∧ baseY + 0.2 ≤ (dropletFrame baseY δ d).posY
    ∧ (dropletFrame baseY δ d).posY ≤ baseY + 2 := by
  obtain ⟨h0, h1, -, -⟩ := hd
  have hb := lerp_bounds (baseY + 2) (baseY + 0.2) d.t h0 h1 (by linarith)
  exact ⟨le_min (by norm_num) (by linarith), min_le_left _ _, hb.1, hb.2⟩

theorem runDroplet_inv (baseY : ℝ) (deltas : List ℝ) (h : ∀ δ ∈ deltas, 0 ≤ δ) :
    0 ≤ (runDroplet baseY deltas).t ∧ (runDroplet baseY deltas).t ≤ 1
    ∧ baseY + 0.2 ≤ (runDroplet baseY deltas).posY
    ∧ (runDroplet baseY deltas).posY ≤ baseY + 2 := by
  have hstep : ∀ (ds : List ℝ), (∀ δ ∈ ds, 0 ≤ δ) → ∀ d : DropletState,
      (0 ≤ d.t ∧ d.t ≤ 1 ∧ baseY + 0.2 ≤ d.posY ∧ d.posY ≤ baseY + 2) →
      0 ≤ (ds.foldl (fun d δ => dropletFrame baseY δ d) d).t
      ∧ (ds.foldl (fun d δ => dropletFrame baseY δ d) d).t ≤ 1
      ∧ baseY + 0.2 ≤ (ds.foldl (fun d δ => dropletFrame baseY δ d) d).posY
      ∧ (ds.foldl (fun d δ => dropletFrame baseY δ d) d).posY ≤ baseY + 2 := by
    intro ds
    induction ds with
    | nil => intro _ d hd; exact hd
    | cons δ rest ih =>
        intro hds d hd
        exact ih (fun x hx => hds x (List.mem_cons_of_mem _ hx)) _
          (dropletFrame_inv baseY δ (hds δ (List.mem_cons_self _ _)) d hd)
  refine hstep deltas h (dropletInit baseY) ⟨?_, ?_, ?_, ?_⟩ <;>
    simp only [dropletInit] <;> norm_num

theorem atan2_zero_pos (x : ℝ) (hx : 0 ≤ x) : atan2 0 x = 0 := by
  unfold atan2
  have hc : (⟨x, 0⟩ : ℂ) = (x : ℂ) := rfl
  rw [hc]
  exact Complex.arg_ofReal_of_nonneg hx

theorem angleDiffNorm_zero : angleDiffNorm 0 = 0 := by
  unfold angleDiffNorm atan2
  rw [Real.sin_zero, Real.cos_zero]
  have hc : (⟨1, 0⟩ : ℂ) = 1 := by
    apply Complex.ext <;> simp
  rw [hc, Complex.arg_one]

theorem angleDiffNorm_pi : angleDiffNorm π = π := by
  unfold angleDiffNorm atan2
  rw [Real.sin_pi, Real.cos_pi]
  have hc : (⟨-1, 0⟩ : ℂ) = -1 := by
    apply Complex.ext <;> simp
  rw [hc, Complex.arg_neg_one]

theorem eggAngleB_zero : eggAngle eggCountB 0 = 0 := by
  unfold eggAngle
  simp

theorem eggAngleB_four : eggAngle eggCountB 4 = π := by
  unfold eggAngle eggCountB
  push_cast
  ring

theorem thresholdAngle_pos : 0 < thresholdAngle := by
  unfold thresholdAngle
  positivity

theorem thresholdAngle_le_pi : thresholdAngle ≤ π := by
  unfold thresholdAngle
  exact div_le_self Real.pi_pos.le (by norm_num)

theorem gate_reject_four :
    thresholdAngle ≤ |angleDiffNorm (eggAngle eggCountB 4 - atan2 0 10)| := by
  rw [atan2_zero_pos 10 (by norm_num), eggAngleB_four, sub_zero, angleDiffNorm_pi,
    abs_of_pos Real.pi_pos]
  exact thresholdAngle_le_pi

theorem gate_accept_zero :
    |angleDiffNorm (eggAngle eggCountB 0 - atan2 0 10)| < thresholdAngle := by
  rw [atan2_zero_pos 10 (by norm_num), eggAngleB_zero, sub_zero, angleDiffNorm_zero,
    abs_zero]
  exact thresholdAngle_pos

theorem applyOp_dropped_mono (op : OpB) (s : SceneB) (i : ℕ) (h : i ∈ s.dropped) :
    i ∈ (applyOp op s).dropped := by
  cases op with
  | crack camPos j =>
      show i ∈ (handleCrackB camPos j
        { dropped := s.dropped, selectedEgg := s.selectedEgg }).dropped
      unfold handleCrackB
      split
      · exact mem_crackDropped_of_mem j h
      · exact h
  | scroll dx dy => exact h
  | frame δ hov => exact h

theorem runB_dropped_mono (ops : List OpB) (s : SceneB) (i : ℕ) (h : i ∈ s.dropped) :
    i ∈ (runB ops s).dropped := by
  induction ops generalizing s with
  | nil => exact h
  | cons op rest ih => exact ih _ (applyOp_dropped_mono op s i h)

theorem applyOp_crack_adds (camPos : ℝ × ℝ × ℝ) (i : ℕ) (s : SceneB)
    (hgate : |angleDiffNorm (eggAngle eggCountB i - atan2 camPos.2.2 camPos.1)|
      < thresholdAngle) :
    i ∈ (applyOp (OpB.crack camPos i) s).dropped := by
  show i ∈ (handleCrackB camPos i
    { dropped := s.dropped, selectedEgg := s.selectedEgg }).dropped
  unfold handleCrackB
  rw [if_pos hgate]
  exact mem_crackDropped_self i s.dropped

/-- C1. Dropped-set monotonicity: no session event (crack, scroll, frame) ever
removes an index from `dropped`; membership persists across any remaining
sequence of events; and a crack that passes the facing gate puts its index into
`dropped` immediately and for the rest of the session. -/
theorem dropped_monotone (op : OpB) (ops : List OpB) (s : SceneB) (i : ℕ)
    (camPos : ℝ × ℝ × ℝ) :
    (i ∈ s.dropped → i ∈ (applyOp op s).dropped)
    ∧ (i ∈ s.dropped → i ∈ (runB ops s).dropped)
    ∧ (|angleDiffNorm (eggAngle eggCountB i - atan2 camPos.2.2 camPos.1)|
          < thresholdAngle →
        i ∈ (applyOp (OpB.crack camPos i) s).dropped
        ∧ i ∈ (runB ops (applyOp (OpB.crack camPos i) s)).dropped) := by
  refine ⟨applyOp_dropped_mono op s i, runB_dropped_mono ops s i, fun hg => ?_⟩
  have h1 := applyOp_crack_adds camPos i s hg
  exact ⟨h1, runB_dropped_mono ops _ i h1⟩

/-- C1 witness: a gate-passing crack of egg `0` from a camera at angle `0` drops it,
and a scroll event keeps an already dropped index `3` dropped. -/
theorem dropped_monotone_witness :
    (0 : ℕ) ∈ (applyOp (OpB.crack (10, 5, 0) 0) initSceneB).dropped
    ∧ (3 : ℕ) ∈ (applyOp (OpB.scroll 1 2) { initSceneB with dropped := [3] }).dropped :=
  ⟨((dropped_monotone (OpB.scroll 1 2) [] initSceneB 0 (10, 5, 0)).2.2
      gate_accept_zero).1,
   (dropped_monotone (OpB.scroll 1 2) [] { initSceneB with dropped := [3] } 3
      (10, 5, 0)).1 (by simp)⟩

/-- C2. Facing-gate rejection semantics: `crack(i)` leaves the state unchanged when
the normalized angle difference between the egg angle `i·2π/N` and the camera angle
`atan2(cameraZ, cameraX)` reaches the threshold `π/2.5` in absolute value, and
otherwise sets `selectedEgg = i` and puts `i` into `dropped`; with `N = 8` and the
camera at angle `0`, `crack(4)` is rejected with no state change and `crack(0)`
succeeds. -/
theorem facing_gate_semantics (camPos : ℝ × ℝ × ℝ) (i : ℕ) (s : StateB) :
    (thresholdAngle ≤
        |angleDiffNorm (eggAngle eggCountB i - atan2 camPos.2.2 camPos.1)| →
      handleCrackB camPos i s = s)
    ∧ (|angleDiffNorm (eggAngle eggCountB i - atan2 camPos.2.2 camPos.1)|
          < thresholdAngle →
        (handleCrackB camPos i s).selectedEgg = some i
        ∧ i ∈ (handleCrackB camPos i s).dropped)
    ∧ handleCrackB (10, 5, 0) 4 s = s
    ∧ ((handleCrackB (10, 5, 0) 0 s).selectedEgg = some 0
        ∧ 0 ∈ (handleCrackB (10, 5, 0) 0 s).dropped) := by
  have hrej : ∀ (c : ℝ × ℝ × ℝ) (j : ℕ) (s : StateB),
      thresholdAngle ≤ |angleDiffNorm (eggAngle eggCountB j - atan2 c.2.2 c.1)| →
      handleCrackB c j s = s := by
    intro c j s h
    unfold handleCrackB
    rw [if_neg (not_lt.mpr h)]
  have hacc : ∀ (c : ℝ × ℝ × ℝ) (j : ℕ) (s : StateB),
      |angleDiffNorm (eggAngle eggCountB j - atan2 c.2.2 c.1)| < thresholdAngle →
      (handleCrackB c j s).selectedEgg = some j ∧ j ∈ (handleCrackB c j s).dropped := by
    intro c j s h
    unfold handleCrackB
    rw [if_pos h]
    exact ⟨rfl, mem_crackDropped_self j s.dropped⟩
  exact ⟨hrej camPos i s, hacc camPos i s,
    hrej (10, 5, 0) 4 s gate_reject_four, hacc (10, 5, 0) 0 s gate_accept_zero⟩

/-- C2 witness: the two concrete gate outcomes at the empty initial state. -/
theorem facing_gate_semantics_witness :
    handleCrackB (10, 5, 0) 4 { dropped := [], selectedEgg := none }
      = { dropped := [], selectedEgg := none }
    ∧ (handleCrackB (10, 5, 0) 0 { dropped := [], selectedEgg := none }).selectedEgg
      = some 0 :=
  ⟨(facing_gate_semantics (10, 5, 0) 4 { dropped := [], selectedEgg := none }).1
      gate_reject_four,
   ((facing_gate_semantics (10, 5, 0) 0 { dropped := [], selectedEgg := none }).2.1
      gate_accept_zero).1⟩

/-- C3. Crack idempotence on membership: cracking the same index twice yields the
very same `dropped` list as cracking it once (and the shared dropped-set update is
idempotent); starting from a duplicate-free list the index appears exactly once;
and each call still sets `selectedEgg = i` and restarts the auto-clear timer from
its own call time. -/
theorem crack_idempotent (s : StateA) (i : ℕ) (t₁ t₂ : ℝ) :
    (handleCrackA t₂ i (handleCrackA t₁ i s)).dropped = (handleCrackA t₁ i s).dropped
    ∧ crackDropped i (crackDropped i s.dropped) = crackDropped i s.dropped
    ∧ (s.dropped.Nodup →
        (handleCrackA t₁ i s).dropped.Nodup
        ∧ (handleCrackA t₁ i s).dropped.count i = 1)
    ∧ (handleCrackA t₁ i s).selectedEgg = some i
    ∧ (handleCrackA t₂ i (handleCrackA t₁ i s)).selectedEgg = some i
    ∧ (handleCrackA t₂ i (handleCrackA t₁ i s)).selectionDeadline = some (t₂ + 3000) := by
  have hidem : ∀ l : List ℕ, crackDropped i (crackDropped i l) = crackDropped i l := by
    intro l
    unfold crackDropped
    split
    · rfl
    · rw [if_pos (by simp)]
  refine ⟨hidem s.dropped, hidem s.dropped, ?_, rfl, rfl, rfl⟩
  intro hnd
  show (crackDropped i s.dropped).Nodup ∧ (crackDropped i s.dropped).count i = 1
  unfold crackDropped
  split
  · exact ⟨hnd, List.count_eq_one_of_mem hnd ‹i ∈ s.dropped›⟩
  · constructor
    · simp [List.nodup_append, hnd, ‹i ∉ s.dropped›]
    · rw [List.count_append, List.count_eq_zero_of_not_mem ‹i ∉ s.dropped›]
      simp

/-- C3 witness: double-crack of egg `2` from the initial state of `App.tsx`. -/
theorem crack_idempotent_witness :
    (handleCrackA 50 2 (handleCrackA 0 2 initA)).dropped
      = (handleCrackA 0 2 initA).dropped
    ∧ ((handleCrackA 0 2 initA).dropped.Nodup
        ∧ (handleCrackA 0 2 initA).dropped.count 2 = 1) :=
  ⟨(crack_idempotent initA 2 0 50).1,
   (crack_idempotent initA 2 0 50).2.2.1 (by simp [initA])⟩

/-- C4. Auto-clear timing: after `crack(j)` at time `t`, observing the event loop
before `t + 3000` leaves `selectedEgg = j`, and observing it at or after `t + 3000`
clears the selection (and the timer); in particular after `crack(2)` at `0` and
`crack(5)` at `1000`, nothing fires at `3000` — `selectedEgg` is still `5` — and
the clear fires at `4000`. -/
theorem auto_clear_timing (s : StateA) (j : ℕ) (t u : ℝ) :
    (u < t + 3000 → (tickA u (handleCrackA t j s)).selectedEgg = some j)
    ∧ (t + 3000 ≤ u →
        (tickA u (handleCrackA t j s)).selectedEgg = none
        ∧ (tickA u (handleCrackA t j s)).selectionDeadline = none)
    ∧ (tickA 3000 (handleCrackA 1000 5 (handleCrackA 0 2 initA))).selectedEgg = some 5
    ∧ (tickA 4000 (handleCrackA 1000 5 (handleCrackA 0 2 initA))).selectedEgg = none := by
  have hred : ∀ (s : StateA) (j : ℕ) (t u : ℝ),
      tickA u (handleCrackA t j s)
        = if t + 3000 ≤ u
          then { dropped := crackDropped j s.dropped, selectedEgg := none,
                 selectionDeadline := none }
          else handleCrackA t j s := by
    intro s j t u
    rfl
  have hkeep : ∀ (s : StateA) (j : ℕ) (t u : ℝ), u < t + 3000 →
      (tickA u (handleCrackA t j s)).selectedEgg = some j := by
    intro s j t u h
    rw [hred, if_neg (not_le.mpr h)]
    rfl
  have hclear : ∀ (s : StateA) (j : ℕ) (t u : ℝ), t + 3000 ≤ u →
      (tickA u (handleCrackA t j s)).selectedEgg = none
      ∧ (tickA u (handleCrackA t j s)).selectionDeadline = none := by
    intro s j t u h
    rw [hred, if_pos h]
    exact ⟨rfl, rfl⟩
  exact ⟨hkeep s j t u, hclear s j t u,
    hkeep (handleCrackA 0 2 initA) 5 1000 3000 (by norm_num),
    (hclear (handleCrackA 0 2 initA) 5 1000 4000 (by norm_num)).1⟩

/-- C4 witness: a single crack at time `0`, observed just before and exactly at the
3000 ms deadline. -/
theorem auto_clear_timing_witness :
    (tickA 2999 (handleCrackA 0 2 initA)).selectedEgg = some 2
    ∧ (tickA 3000 (handleCrackA 0 2 initA)).selectedEgg = none :=
  ⟨(auto_clear_timing initA 2 0 2999).1 (by norm_num),
   ((auto_clear_timing initA 2 0 3000).2.1 (by norm_num)).1⟩

/-- C6. Drop animation correctness: with non-negative frame deltas the progress
never decreases from one frame to the next and stays in `[0, 1]` over any run from
the droplet's creation; each frame writes the vertical position as the linear
interpolation from `baseY + 2` to `baseY + 0.2` at the progress current during that
frame, and that interpolation is exactly `baseY + 2` at progress `0` and exactly
`baseY + 0.2` at progress `1`. -/
theorem droplet_anim (baseY delta : ℝ) (d : DropletState) (deltas : List ℝ) :
    (0 ≤ delta → d.t ≤ 1 → d.t ≤ (dropletFrame baseY delta d).t)
    ∧ ((∀ δ ∈ deltas, 0 ≤ δ) →
        0 ≤ (runDroplet baseY deltas).t ∧ (runDroplet baseY deltas).t ≤ 1)
    ∧ (dropletFrame baseY delta d).posY = lerp (baseY + 2) (baseY + 0.2) d.t
    ∧ dropletPosY baseY 0 = baseY + 2
    ∧ dropletPosY baseY 1 = baseY + 0.2 := by
  refine ⟨fun h0 h1 => le_min h1 (by linarith), fun h => ?_, rfl,
    lerp_zero_right _ _, lerp_one_right _ _⟩
  have hinv := runDroplet_inv baseY deltas h
  exact ⟨hinv.1, hinv.2.1⟩

/-- C6 witness: one frame of `0.5` s on a fresh droplet at base height `1`, and a
two-frame run. -/
theorem droplet_anim_witness :
    (dropletInit 1).t ≤ (dropletFrame 1 0.5 (dropletInit 1)).t
    ∧ (0 ≤ (runDroplet 1 [0.5, 0.7]).t ∧ (runDroplet 1 [0.5, 0.7]).t ≤ 1) := by
  have h := droplet_anim 1 0.5 (dropletInit 1) [0.5, 0.7]
  refine ⟨h.1 (by norm_num) (by norm_num [dropletInit]), h.2.1 ?_⟩
  intro δ hδ
  simp only [List.mem_cons, List.not_mem_nil, or_false] at hδ
  rcases hδ with rfl | rfl <;> norm_num

/-- C10. Implicit drop-marker bound: over any run of frames with non-negative
deltas, the marker's vertical position stays within
`[baseY + 0.2, baseY + 2]` — it never descends below its resting height nor rises
above its start height. -/
theorem droplet_pos_bounded (baseY : ℝ) (deltas : List ℝ) (h : ∀ δ ∈ deltas, 0 ≤ δ) :
    baseY + 0.2 ≤ (runDroplet baseY deltas).posY
    ∧ (runDroplet baseY deltas).posY ≤ baseY + 2 := by
  have hinv := runDroplet_inv baseY deltas h
  exact ⟨hinv.2.2.1, hinv.2.2.2⟩

/-- C10 witness: a concrete three-frame run at base height `1`. -/
theorem droplet_pos_bounded_witness :
    1 + 0.2 ≤ (runDroplet 1 [0.016, 0.4, 2]).posY
    ∧ (runDroplet 1 [0.016, 0.4, 2]).posY ≤ 1 + 2 := by
  refine droplet_pos_bounded 1 [0.016, 0.4, 2] ?_
  intro δ hδ
  simp only [List.mem_cons, List.not_mem_nil, or_false] at hδ
  rcases hδ with rfl | rfl | rfl <;> norm_num
